import Mathlib

/-!
Verification of the `ethernet` package: marshaling and unmarshaling of
IEEE 802.3 Ethernet II frames and IEEE 802.1Q VLAN tags.

Byte buffers are modelled as `List Nat`; wherever the Go code truncates a
value to a machine type (`uint8`, `uint16`), the model takes the value
`% 256` resp. `% 65536`.  Fallible operations return `Except Err`; the
frame decoder additionally distinguishes a `crash` outcome, which models a
Go runtime panic caused by an out-of-range slice expression (taking
`capb = len b`, as for any freshly built byte slice).
-/

namespace Ethernet

/-- The two error values produced by the codec: `io.ErrUnexpectedEOF` and
`ErrInvalidVLAN`. -/
inductive Err where
  | eof
  | invalidVLAN
deriving DecidableEq

deriving instance DecidableEq for Except

/-- `b[lo:hi]` on a Go byte slice (within bounds). -/
def slice (b : List Nat) (lo hi : Nat) : List Nat :=
  (b.drop lo).take (hi - lo)

/-- `binary.BigEndian.Uint16` of (the first two bytes of) a buffer. -/
def uint16BE (s : List Nat) : Nat :=
  ((s.getD 0 0 % 256) <<< 8) ||| (s.getD 1 0 % 256)

/-- `binary.BigEndian.PutUint16`: the two big-endian bytes of a 16-bit value. -/
def putUint16 (v : Nat) : List Nat :=
  [(v % 65536) >>> 8, v % 256]

/-- `make([]byte, k)` followed by `copy` from `xs`: the first
`min k xs.length` bytes of `xs`, zero-padded to length `k`. -/
def padTo (k : Nat) (xs : List Nat) : List Nat :=
  xs.take k ++ List.replicate (k - xs.length) 0

/-- An IEEE 802.1Q VLAN tag (struct `VLAN` of `vlan.go`).
`priority` is a `uint8`, `id` a `uint16` in Go. -/
structure VLAN where
  priority : Nat
  dropEligible : Bool
  id : Nat
deriving DecidableEq

/-- The 16-bit packed form of a VLAN tag built by `VLAN.MarshalBinary`
(`vlan.go`): `ub := uint16(v.Priority) << 13; ub |= drop << 12; ub |= v.ID`. -/
def VLAN.pack (v : VLAN) : Nat :=
  let ub := ((v.priority % 256) <<< 13) % 65536
  let drop : Nat := if v.dropEligible then 1 else 0
  let ub := ub ||| (drop <<< 12)
  let ub := ub ||| (v.id % 65536)
  ub

/-- `VLAN.MarshalBinary` (`vlan.go`): packs the tag into two bytes;
this version performs no validation and never returns an error. -/
def VLAN.marshalBinary (v : VLAN) : Except Err (List Nat) :=
  .ok (putUint16 v.pack)

/-- `VLAN.UnmarshalBinary` (`vlan.go`): requires exactly two bytes, then
extracts priority (bits 15-13), drop eligibility (bit 12) and id
(bits 11-0). -/
def VLAN.unmarshalBinary (b : List Nat) : Except Err VLAN :=
  if b.length ≠ 2 then .error .eof
  else
    let ub := uint16BE (slice b 0 2)
    .ok { priority := (ub >>> 13) % 256
          dropEligible := decide (ub &&& 0x1000 ≠ 0)
          id := ub &&& 0x0fff }

/-- An Ethernet II frame (struct `Frame`).  MAC addresses and the payload
are byte lists; `etherType` is a `uint16` in Go. -/
structure Frame where
  destinationMAC : List Nat
  sourceMAC : List Nat
  vlan : List VLAN
  etherType : Nat
  payload : List Nat
deriving DecidableEq

/-- The Go zero value `new(Frame)`: nil slices and a zero EtherType. -/
def emptyFrame : Frame :=
  { destinationMAC := [], sourceMAC := [], vlan := [], etherType := 0, payload := [] }

/-- The tag-marshalling loop of `Frame.MarshalBinary`: per VLAN tag, marshal
it (propagating any error immediately), then emit the VLAN EtherType marker
`0x8100` followed by the two tag bytes copied into their zeroed 2-byte
region. -/
def marshalVLANs : List VLAN → Except Err (List Nat)
  | [] => .ok []
  | v :: tl =>
    match v.marshalBinary with
    | .error e => .error e
    | .ok vb =>
      match marshalVLANs tl with
      | .error e => .error e
      | .ok rest => .ok (putUint16 0x8100 ++ padTo 2 vb ++ rest)

/-- `Frame.MarshalBinary`: destination and source are copied into the
six-byte regions of the zeroed output buffer, then the marshalled VLAN
tags, then the EtherType and the payload. -/
def Frame.marshalBinary (f : Frame) : Except Err (List Nat) :=
  match marshalVLANs f.vlan with
  | .error e => .error e
  | .ok chunks =>
    .ok (padTo 6 f.destinationMAC ++ padTo 6 f.sourceMAC ++ chunks
        ++ putUint16 f.etherType ++ f.payload)

/-- Outcome of the VLAN tag-chain loop of `Frame.UnmarshalBinary`:
normal exit with the cursor `n`, the first non-VLAN 16-bit value `et` and
the remaining bytes `b[n:]`; an error return from inside the loop; or a
runtime panic from the out-of-range slice `b[n+2:n+4]`. -/
inductive LoopRes where
  | done (n : Nat) (et : Nat) (rest : List Nat)
  | fail (e : Err)
  | crash
deriving DecidableEq

/-- The tag-chain loop of `Frame.UnmarshalBinary`:
`for ; et == EtherTypeVLAN; n += 4 { ... }`.
`rest` is `b[n:]`, the buffer from the cursor on; `n` is the cursor.
Each iteration needs 2 bytes for the tag body (else `ErrUnexpectedEOF`) and
reads `b[n+2:n+4]` for the next 16-bit lookahead - an out-of-range slice
(runtime panic, modelled `crash`) when fewer than 4 bytes remain. -/
def tagLoop (rest : List Nat) (n et : Nat) (f : Frame) : LoopRes × Frame :=
  if et = 0x8100 then
    match rest with
    | [] => (.fail .eof, f)
    | [_] => (.fail .eof, f)
    | b0 :: b1 :: rest2 =>
      match VLAN.unmarshalBinary [b0, b1] with
      | .error e => (.fail e, f)
      | .ok v =>
        let f' := { f with vlan := f.vlan ++ [v] }
        match rest2 with
        | c0 :: c1 :: rest4 => tagLoop rest4 (n + 4) (uint16BE [c0, c1]) f'
        | _ => (.crash, f')
  else (.done n et rest, f)

/-- Result of `Frame.UnmarshalBinary`; the method mutates its receiver, so
the model returns the final receiver state alongside the result. -/
inductive UResult where
  | ok
  | err (e : Err)
  | crash
deriving DecidableEq

/-- `Frame.UnmarshalBinary` (`ethernet.go`): at least 14 bytes, copy the
two MAC addresses, run the tag-chain loop from offset 14 with the 16-bit
value at offset 12 as first lookahead, store the terminating EtherType,
then apply the minimum-payload check (46 bytes, reduced by 4 for at most
one detected VLAN tag, or for a payload short by exactly 4 when no tag was
detected) and store the payload. -/
def Frame.unmarshalBinary (f : Frame) (b : List Nat) : UResult × Frame :=
  if b.length < 14 then (.err .eof, f)
  else
    let f1 := { f with destinationMAC := slice b 0 6, sourceMAC := slice b 6 12 }
    match tagLoop (b.drop 14) 14 (uint16BE (slice b 12 14)) f1 with
    | (.fail e, f2) => (.err e, f2)
    | (.crash, f2) => (.crash, f2)
    | (.done _ et rest, f2) =>
      let f3 := { f2 with etherType := et }
      let l : Int := 46 - (rest.length : Int)
      let vl0 := f3.vlan.length
      let vl1 := if vl0 > 1 then 1 else vl0
      let vl2 := if vl1 = 0 ∧ l = 4 then vl1 + 1 else vl1
      if (rest.length : Int) < 46 - (vl2 : Int) * 4 then (.err .eof, f3)
      else (.ok, { f3 with payload := rest })

/-! ### Arithmetic facts about the bit-level helpers -/

theorem two_pow_mul_lor (k a b : Nat) (hb : b < 2 ^ k) :
    2 ^ k * a ||| b = 2 ^ k * a + b := by
  apply Nat.eq_of_testBit_eq
  intro i
  rcases Nat.lt_or_ge i k with h | h
  · have h1 : Nat.testBit (2 ^ k * a) i = false := by
      rw [Nat.mul_comm, ← Nat.shiftLeft_eq]
      simp [Nat.testBit_shiftLeft, Nat.not_le.mpr h]
    have hk : (2:Nat) ^ k = 2 ^ i * (2 * 2 ^ (k - i - 1)) := by
      rw [← Nat.mul_assoc, ← Nat.pow_succ, ← Nat.pow_add]
      congr 1
      omega
    have h2 : 2 ^ k * a + b = 2 ^ i * (2 * (2 ^ (k - i - 1) * a)) + b := by
      rw [hk]
      ring
    rw [Nat.testBit_or, h1, Bool.false_or, Nat.testBit_to_div_mod,
      Nat.testBit_to_div_mod, h2, Nat.mul_add_div (Nat.two_pow_pos i)]
    have hmod : (2 * (2 ^ (k - i - 1) * a) + b / 2 ^ i) % 2 = b / 2 ^ i % 2 := by
      omega
    rw [hmod]
  · have hbi : b < 2 ^ i := lt_of_lt_of_le hb (Nat.pow_le_pow_right (by omega) h)
    have h1 : Nat.testBit b i = false := Nat.testBit_lt_two_pow hbi
    have h2 : (2 ^ k * a + b) / 2 ^ i = 2 ^ k * a / 2 ^ i := by
      have hsplit : (2:Nat) ^ i = 2 ^ k * 2 ^ (i - k) := by
        rw [← Nat.pow_add]
        congr 1
        omega
      rw [hsplit, ← Nat.div_div_eq_div_mul, ← Nat.div_div_eq_div_mul,
        Nat.mul_add_div (Nat.two_pow_pos k), Nat.div_eq_of_lt hb, Nat.add_zero,
        Nat.mul_div_cancel_left a (Nat.two_pow_pos k)]
    rw [Nat.testBit_or, h1, Bool.or_false, Nat.testBit_to_div_mod,
      Nat.testBit_to_div_mod, h2]

theorem uint16BE_pair (a b : Nat) :
    uint16BE [a, b] = 256 * (a % 256) + (b % 256) := by
  show ((a % 256) <<< 8) ||| (b % 256) = _
  rw [Nat.shiftLeft_eq, Nat.mul_comm]
  exact two_pow_mul_lor 8 _ _ (by omega)

theorem putUint16_eq (x : Nat) : putUint16 x = [x % 65536 / 256, x % 256] := by
  unfold putUint16
  rw [Nat.shiftRight_eq_div_pow]

theorem uint16BE_putUint16 (x : Nat) (h : x < 65536) :
    uint16BE (putUint16 x) = x := by
  rw [putUint16_eq, uint16BE_pair, Nat.mod_eq_of_lt h]
  omega

theorem VLAN.pack_val (p : Nat) (d : Bool) (i : Nat) (hp : p < 8) (hi : i < 4096) :
    VLAN.pack ⟨p, d, i⟩ = 8192 * p + 4096 * (if d then 1 else 0) + i := by
  have hd : (if d then (1:Nat) else 0) ≤ 1 := by cases d <;> simp
  show ((p % 256) <<< 13) % 65536 ||| ((if d then (1:Nat) else 0) <<< 12)
      ||| (i % 65536) = _
  have h1 : ((p % 256) <<< 13) % 65536 = 2 ^ 13 * p := by
    rw [Nat.mod_eq_of_lt (by omega : p < 256), Nat.shiftLeft_eq, Nat.mul_comm]
    apply Nat.mod_eq_of_lt
    have : (2:Nat) ^ 13 * p ≤ 2 ^ 13 * 7 := Nat.mul_le_mul_left _ (by omega)
    omega
  have h2 : (if d then (1:Nat) else 0) <<< 12 = 4096 * (if d then 1 else 0) := by
    rw [Nat.shiftLeft_eq, Nat.mul_comm]
  rw [h1, h2, two_pow_mul_lor 13 _ _ (by omega)]
  have h3 : 2 ^ 13 * p + 4096 * (if d then 1 else 0)
      = 2 ^ 12 * (2 * p + (if d then 1 else 0)) := by
    have h13 : (2:Nat) ^ 13 = 2 ^ 12 * 2 := by norm_num
    rw [h13]
    ring
  rw [h3, Nat.mod_eq_of_lt (by omega : i < 65536),
    two_pow_mul_lor 12 _ _ (by omega)]
  have h12 : (2:Nat) ^ 12 = 4096 := by norm_num
  rw [h12]
  ring

/-- Unpacking the two packed bytes of a valid tag restores the tag
(shared by the VLAN-level and frame-level round-trip theorems). -/
theorem vlan_unmarshal_pack (v : VLAN) (hp : v.priority ≤ 7) (hi : v.id ≤ 4093) :
    VLAN.unmarshalBinary (putUint16 v.pack) = .ok v := by
  obtain ⟨p, d, i⟩ := v
  simp only at hp hi
  have hpack : VLAN.pack ⟨p, d, i⟩ = 8192 * p + 4096 * (if d then 1 else 0) + i :=
    VLAN.pack_val p d i (by omega) (by omega)
  have hd : (if d then (1:Nat) else 0) ≤ 1 := by cases d <;> simp
  have hlt : VLAN.pack ⟨p, d, i⟩ < 65536 := by
    rw [hpack]
    omega
  unfold VLAN.unmarshalBinary
  rw [putUint16_eq]
  rw [if_neg (by simp)]
  have hslice : slice [VLAN.pack ⟨p, d, i⟩ % 65536 / 256, VLAN.pack ⟨p, d, i⟩ % 256] 0 2
      = [VLAN.pack ⟨p, d, i⟩ % 65536 / 256, VLAN.pack ⟨p, d, i⟩ % 256] := rfl
  rw [hslice, ← putUint16_eq, uint16BE_putUint16 _ hlt, hpack]
  have e1 : ((8192 * p + 4096 * (if d then 1 else 0) + i) >>> 13) % 256 = p := by
    rw [Nat.shiftRight_eq_div_pow]
    have h13 : (2:Nat) ^ 13 = 8192 := by norm_num
    rw [h13]
    omega
  have e2 : decide ((8192 * p + 4096 * (if d then 1 else 0) + i) &&& 0x1000 ≠ 0) = d := by
    have h4096 : (0x1000:Nat) = 2 ^ 12 := by norm_num
    rw [h4096, Nat.and_two_pow, Nat.testBit_to_div_mod]
    have h12 : (2:Nat) ^ 12 = 4096 := by norm_num
    rw [h12]
    cases d
    · have hif : (if (false:Bool) = true then (1:Nat) else 0) = 0 := by norm_num
      rw [hif]
      have hz : (8192 * p + 4096 * 0 + i) / 4096 % 2 = 0 := by omega
      rw [hz]
      decide
    · have hif : (if (true:Bool) = true then (1:Nat) else 0) = 1 := by norm_num
      rw [hif]
      have ho : (8192 * p + 4096 * 1 + i) / 4096 % 2 = 1 := by omega
      rw [ho]
      decide
  have e3 : (8192 * p + 4096 * (if d then 1 else 0) + i) &&& 0x0fff = i := by
    have h4095 : (0x0fff:Nat) = 2 ^ 12 - 1 := by norm_num
    rw [h4095, Nat.and_pow_two_sub_one_eq_mod]
    have h12 : (2:Nat) ^ 12 = 4096 := by norm_num
    rw [h12]
    omega
  simp only [e1, e2, e3]

/-! ### Wire-format structure of marshalled frames -/

/-- The four wire bytes of one VLAN tag on the wire: the marker `0x8100`
followed by the packed tag body. -/
def tagChunk (v : VLAN) : List Nat :=
  putUint16 0x8100 ++ putUint16 v.pack

/-- The wire bytes of a whole tag chain. -/
def tagsBytes (tags : List VLAN) : List Nat :=
  (tags.map tagChunk).flatten

theorem tagsBytes_nil : tagsBytes [] = [] := rfl

theorem tagsBytes_cons (v : VLAN) (tl : List VLAN) :
    tagsBytes (v :: tl) = tagChunk v ++ tagsBytes tl := rfl

theorem tagChunk_length (v : VLAN) : (tagChunk v).length = 4 := rfl

theorem tagsBytes_length (tags : List VLAN) :
    (tagsBytes tags).length = 4 * tags.length := by
  induction tags with
  | nil => rfl
  | cons v tl ih =>
    rw [tagsBytes_cons, List.length_append, tagChunk_length, ih, List.length_cons]
    ring

theorem padTo_putUint16 (x : Nat) : padTo 2 (putUint16 x) = putUint16 x := rfl

theorem padTo_of_length {k : Nat} (xs : List Nat) (h : xs.length = k) :
    padTo k xs = xs := by
  subst h
  simp [padTo]

theorem marshalVLANs_eq (tags : List VLAN) :
    marshalVLANs tags = .ok (tagsBytes tags) := by
  induction tags with
  | nil => rfl
  | cons v tl ih =>
    rw [marshalVLANs, ih]
    rfl

/-- `Frame.MarshalBinary` never fails with this VLAN codec, and its output
is the concatenation of the six header fields. -/
theorem marshalBinary_eq (f : Frame) :
    f.marshalBinary = .ok (padTo 6 f.destinationMAC ++ padTo 6 f.sourceMAC
      ++ tagsBytes f.vlan ++ putUint16 f.etherType ++ f.payload) := by
  unfold Frame.marshalBinary
  rw [marshalVLANs_eq]

theorem putUint16_cons (x : Nat) (r : List Nat) :
    putUint16 x ++ r = (x % 65536) >>> 8 :: x % 256 :: r := rfl

/-- The bytes from the first lookahead on always start with at least two
bytes (the final EtherType if nothing else). -/
theorem wire_shape (tl : List VLAN) (et : Nat) (payload : List Nat) :
    ∃ a b r, tagsBytes tl ++ (putUint16 et ++ payload) = a :: b :: r
      ∧ r = (tagsBytes tl ++ (putUint16 et ++ payload)).drop 2 := by
  cases tl with
  | nil => exact ⟨_, _, _, rfl, rfl⟩
  | cons w tl' => exact ⟨_, _, _, rfl, rfl⟩

/-- Running the tag-chain loop over the wire bytes of a valid tag chain
followed by a non-VLAN EtherType consumes exactly the chain, appends the
tags in order, and leaves the payload. -/
theorem tagLoop_wire (tags : List VLAN) (et : Nat) (payload : List Nat)
    (het : et < 65536) (hne : et ≠ 0x8100) :
    ∀ (_ : ∀ v ∈ tags, v.priority ≤ 7 ∧ v.id ≤ 4093) (n : Nat) (f : Frame),
    tagLoop ((tagsBytes tags ++ (putUint16 et ++ payload)).drop 2) n
      (uint16BE (tagsBytes tags ++ (putUint16 et ++ payload))) f
    = (.done (n + 4 * tags.length) et payload, { f with vlan := f.vlan ++ tags }) := by
  induction tags with
  | nil =>
    intro _ n f
    have h1 : uint16BE (tagsBytes [] ++ (putUint16 et ++ payload)) = et :=
      uint16BE_putUint16 et het
    have h2 : (tagsBytes [] ++ (putUint16 et ++ payload)).drop 2 = payload := rfl
    rw [h1, h2, tagLoop.eq_def, if_neg hne]
    simp
  | cons v tl ih =>
    intro hv n f
    have hvh := hv v (List.mem_cons_self v tl)
    have hvt : ∀ w ∈ tl, w.priority ≤ 7 ∧ w.id ≤ 4093 :=
      fun w hw => hv w (List.mem_cons_of_mem v hw)
    obtain ⟨a, b, r, hshape, hdrop⟩ := wire_shape tl et payload
    have hX : tagsBytes (v :: tl) ++ (putUint16 et ++ payload)
        = 0x81 :: 0x00 :: ((v.pack % 65536) >>> 8 :: v.pack % 256 :: (a :: b :: r)) := by
      rw [tagsBytes_cons, List.append_assoc, hshape]
      rfl
    rw [hX]
    have hun : VLAN.unmarshalBinary [(v.pack % 65536) >>> 8, v.pack % 256] = .ok v :=
      vlan_unmarshal_pack v hvh.1 hvh.2
    have hstep : tagLoop ((0x81 :: 0x00 :: ((v.pack % 65536) >>> 8 :: v.pack % 256
          :: (a :: b :: r))).drop 2) n
          (uint16BE (0x81 :: 0x00 :: ((v.pack % 65536) >>> 8 :: v.pack % 256
          :: (a :: b :: r)))) f
        = tagLoop r (n + 4) (uint16BE [a, b]) { f with vlan := f.vlan ++ [v] } := by
      show tagLoop ((v.pack % 65536) >>> 8 :: v.pack % 256 :: (a :: b :: r)) n
        (uint16BE [0x81, 0x00]) f = _
      rw [tagLoop]
      simp only [show uint16BE [0x81, 0x00] = 0x8100 from rfl, if_pos rfl, hun, if_true]
    rw [hstep]
    have huint : uint16BE [a, b] = uint16BE (tagsBytes tl ++ (putUint16 et ++ payload)) := by
      rw [hshape]
      rfl
    rw [huint, hdrop, ih hvt (n + 4) { f with vlan := f.vlan ++ [v] }]
    simp only [List.length_cons, List.append_assoc, List.singleton_append]
    have harith : n + 4 + 4 * tl.length = n + 4 * (tl.length + 1) := by ring
    rw [harith]

/-- Decoding the marshalled bytes of a well-formed frame into a fresh
`Frame` restores the frame exactly. -/
theorem unmarshal_marshal (f : Frame)
    (hdst : f.destinationMAC.length = 6) (hsrc : f.sourceMAC.length = 6)
    (hv : ∀ v ∈ f.vlan, v.priority ≤ 7 ∧ v.id ≤ 4093)
    (het : f.etherType < 65536) (hne : f.etherType ≠ 0x8100)
    (hp : 46 - 4 * min f.vlan.length 1 ≤ f.payload.length) :
    Frame.unmarshalBinary emptyFrame
      (padTo 6 f.destinationMAC ++ padTo 6 f.sourceMAC ++ tagsBytes f.vlan
        ++ putUint16 f.etherType ++ f.payload) = (.ok, f) := by
  obtain ⟨dst, src, tags, et, payload⟩ := f
  simp only at hdst hsrc hv het hne hp
  rw [padTo_of_length dst hdst, padTo_of_length src hsrc]
  have hassoc : dst ++ src ++ tagsBytes tags ++ putUint16 et ++ payload
      = dst ++ (src ++ (tagsBytes tags ++ (putUint16 et ++ payload))) := by
    simp [List.append_assoc]
  rw [hassoc]
  obtain ⟨a, b, r, hshape, hdrop⟩ := wire_shape tags et payload
  have hWlen : (tagsBytes tags ++ (putUint16 et ++ payload)).length
      = 4 * tags.length + 2 + payload.length := by
    simp [tagsBytes_length, putUint16]
    omega
  have hBlen : (dst ++ (src ++ (tagsBytes tags ++ (putUint16 et ++ payload)))).length
      = 12 + (4 * tags.length + 2 + payload.length) := by
    simp [hdst, hsrc, hWlen]
    omega
  have hd6 : (dst ++ (src ++ (tagsBytes tags ++ (putUint16 et ++ payload)))).drop 6
      = src ++ (tagsBytes tags ++ (putUint16 et ++ payload)) := List.drop_left' hdst
  have hd12 : (dst ++ (src ++ (tagsBytes tags ++ (putUint16 et ++ payload)))).drop 12
      = tagsBytes tags ++ (putUint16 et ++ payload) := by
    rw [show (12:Nat) = 6 + 6 from rfl, ← List.drop_drop, hd6]
    exact List.drop_left' hsrc
  have hd14 : (dst ++ (src ++ (tagsBytes tags ++ (putUint16 et ++ payload)))).drop 14
      = (tagsBytes tags ++ (putUint16 et ++ payload)).drop 2 := by
    rw [show (14:Nat) = 12 + 2 from rfl, ← List.drop_drop, hd12]
  have hslice06 : slice (dst ++ (src ++ (tagsBytes tags ++ (putUint16 et ++ payload)))) 0 6
      = dst := by
    unfold slice
    rw [List.drop_zero]
    exact List.take_left' hdst
  have hslice612 : slice (dst ++ (src ++ (tagsBytes tags ++ (putUint16 et ++ payload)))) 6 12
      = src := by
    unfold slice
    rw [hd6]
    exact List.take_left' hsrc
  have hu : uint16BE (slice (dst ++ (src ++ (tagsBytes tags ++ (putUint16 et ++ payload)))) 12 14)
      = uint16BE (tagsBytes tags ++ (putUint16 et ++ payload)) := by
    unfold slice
    rw [hd12, hshape]
    rfl
  unfold Frame.unmarshalBinary
  rw [if_neg (by rw [hBlen]; omega)]
  rw [hslice06, hslice612, hd14, hu]
  simp only [emptyFrame]
  rw [tagLoop_wire tags et payload het hne hv 14 _]
  simp only [List.nil_append]
  split_ifs <;> first
    | rfl
    | (exfalso; omega)

/-! ### Invariants of the tag-chain loop -/

/-- The tag-chain loop only ever touches the receiver's `vlan` field
(bounded-recursion form). -/
theorem tagLoop_state_aux : ∀ (k : Nat) (rest : List Nat), rest.length ≤ k →
    ∀ (n et : Nat) (f : Frame),
    (tagLoop rest n et f).2.payload = f.payload
    ∧ (tagLoop rest n et f).2.destinationMAC = f.destinationMAC
    ∧ (tagLoop rest n et f).2.sourceMAC = f.sourceMAC := by
  intro k
  induction k with
  | zero =>
    intro rest hlen n et f
    have hnil : rest = [] := List.eq_nil_of_length_eq_zero (by omega)
    subst hnil
    rw [tagLoop.eq_def]
    by_cases het : et = 0x8100
    · rw [if_pos het]
      exact ⟨rfl, rfl, rfl⟩
    · rw [if_neg het]
      exact ⟨rfl, rfl, rfl⟩
  | succ k ih =>
    intro rest hlen n et f
    rw [tagLoop.eq_def]
    by_cases het : et = 0x8100
    · rw [if_pos het]
      rcases rest with _ | ⟨b0, rest1⟩
      · exact ⟨rfl, rfl, rfl⟩
      rcases rest1 with _ | ⟨b1, rest2⟩
      · exact ⟨rfl, rfl, rfl⟩
      rcases hv : VLAN.unmarshalBinary [b0, b1] with e | v
      · simp [hv]
      rcases rest2 with _ | ⟨c0, rest3⟩
      · simp [hv]
      rcases rest3 with _ | ⟨c1, rest4⟩
      · simp [hv]
      simp only [hv]
      have hlen4 : rest4.length ≤ k := by
        simp only [List.length_cons] at hlen
        omega
      obtain ⟨h1, h2, h3⟩ := ih rest4 hlen4 (n + 4) (uint16BE [c0, c1])
        { f with vlan := f.vlan ++ [v] }
      exact ⟨h1, h2, h3⟩
    · rw [if_neg het]
      exact ⟨rfl, rfl, rfl⟩

/-- The tag-chain loop only ever touches the receiver's `vlan` field. -/
theorem tagLoop_state (rest : List Nat) (n et : Nat) (f : Frame) :
    (tagLoop rest n et f).2.payload = f.payload
    ∧ (tagLoop rest n et f).2.destinationMAC = f.destinationMAC
    ∧ (tagLoop rest n et f).2.sourceMAC = f.sourceMAC :=
  tagLoop_state_aux rest.length rest (Nat.le_refl _) n et f

/-- The tag-chain loop terminates normally only on a non-marker value
(bounded-recursion form). -/
theorem tagLoop_done_et_aux : ∀ (k : Nat) (rest : List Nat), rest.length ≤ k →
    ∀ (n et : Nat) (f : Frame) (m et2 : Nat) (r2 : List Nat) (f2 : Frame),
    tagLoop rest n et f = (.done m et2 r2, f2) → et2 ≠ 0x8100 := by
  intro k
  induction k with
  | zero =>
    intro rest hlen n et f m et2 r2 f2 h
    have hnil : rest = [] := List.eq_nil_of_length_eq_zero (by omega)
    subst hnil
    rw [tagLoop.eq_def] at h
    by_cases het : et = 0x8100
    · rw [if_pos het] at h
      simp at h
    · rw [if_neg het] at h
      cases h
      exact het
  | succ k ih =>
    intro rest hlen n et f m et2 r2 f2 h
    rw [tagLoop.eq_def] at h
    by_cases het : et = 0x8100
    · rw [if_pos het] at h
      rcases rest with _ | ⟨b0, rest1⟩
      · simp at h
      rcases rest1 with _ | ⟨b1, rest2⟩
      · simp at h
      rcases hv : VLAN.unmarshalBinary [b0, b1] with e | v
      · simp [hv] at h
      rcases rest2 with _ | ⟨c0, rest3⟩
      · simp [hv] at h
      rcases rest3 with _ | ⟨c1, rest4⟩
      · simp [hv] at h
      simp only [hv] at h
      have hlen4 : rest4.length ≤ k := by
        simp only [List.length_cons] at hlen
        omega
      exact ih rest4 hlen4 (n + 4) (uint16BE [c0, c1])
        { f with vlan := f.vlan ++ [v] } m et2 r2 f2 h
    · rw [if_neg het] at h
      cases h
      exact het

/-- The tag-chain loop terminates normally only on a non-marker value. -/
theorem tagLoop_done_et (rest : List Nat) (n et : Nat) (f : Frame)
    (m et2 : Nat) (r2 : List Nat) (f2 : Frame)
    (h : tagLoop rest n et f = (.done m et2 r2, f2)) : et2 ≠ 0x8100 :=
  tagLoop_done_et_aux rest.length rest (Nat.le_refl _) n et f m et2 r2 f2 h

theorem padTo_length (k : Nat) (xs : List Nat) : (padTo k xs).length = k := by
  simp [padTo]
  omega

/-- Decoding a buffer that succeeds never leaves the VLAN marker as the
frame's EtherType (shared by C10's two conjuncts). -/
theorem unmarshal_ok_et (f : Frame) (b : List Nat) (f2 : Frame)
    (h : Frame.unmarshalBinary f b = (.ok, f2)) : f2.etherType ≠ 0x8100 := by
  by_cases hlen : b.length < 14
  · simp only [Frame.unmarshalBinary, if_pos hlen] at h
    simp at h
  · simp only [Frame.unmarshalBinary, if_neg hlen] at h
    rcases htl : tagLoop (b.drop 14) 14 (uint16BE (slice b 12 14))
        { f with destinationMAC := slice b 0 6, sourceMAC := slice b 6 12 } with ⟨res, fX⟩
    rw [htl] at h
    cases res with
    | fail e => simp at h
    | crash => simp at h
    | done m et rest =>
      have hne := tagLoop_done_et _ _ _ _ _ _ _ _ htl
      simp only [] at h
      repeat' split at h
      all_goals first
        | (subst h; simpa using hne)
        | (injection h with h1 h2; subst h2; simpa using hne)
        | simp at h

/-! ### Claim theorems -/

/-- C1 (amended): for every frame with 6-byte destination and source
addresses, valid VLAN tags (priority at most 7, id at most 4093), a 16-bit
EtherType other than the VLAN marker `0x8100`, and a payload of length at
least `46 - 4 * min k 1` (`k` the number of tags), unmarshaling the bytes
produced by marshal into a fresh frame yields the frame back exactly:
same destination, source, VLAN tag sequence in order, EtherType, payload. -/
theorem c1_round_trip (f : Frame)
    (hdst : f.destinationMAC.length = 6) (hsrc : f.sourceMAC.length = 6)
    (hv : ∀ v ∈ f.vlan, v.priority ≤ 7 ∧ v.id ≤ 4093)
    (het : f.etherType < 65536) (hne : f.etherType ≠ 0x8100)
    (hp : 46 - 4 * min f.vlan.length 1 ≤ f.payload.length) :
    ∃ bs, f.marshalBinary = .ok bs
      ∧ Frame.unmarshalBinary emptyFrame bs = (.ok, f) :=
  ⟨_, marshalBinary_eq f, unmarshal_marshal f hdst hsrc hv het hne hp⟩

/-- C1 counterexample: a frame whose (zero) VLAN tags are all valid but
whose payload is empty marshals to a 14-byte buffer that unmarshal
rejects with `UnexpectedEndOfInput`, so `unpack (pack f) = f` fails as
stated. -/
theorem c1_cex :
    Frame.marshalBinary
      { destinationMAC := [0, 0, 0, 0, 0, 0], sourceMAC := [0, 0, 0, 0, 0, 0],
        vlan := [], etherType := 0x0800, payload := [] }
    = .ok [0, 0, 0, 0, 0, 0, 0, 0, 0, 0, 0, 0, 0x08, 0x00]
    ∧ (Frame.unmarshalBinary emptyFrame
        [0, 0, 0, 0, 0, 0, 0, 0, 0, 0, 0, 0, 0x08, 0x00]).1 = .err .eof := by
  decide

/-- C1 witness: a concrete one-tag frame with a 42-byte payload
round-trips. -/
theorem c1_round_trip_wit :
    ∃ bs, Frame.marshalBinary
      ⟨[0, 1, 0, 1, 0, 1], [1, 0, 1, 0, 1, 0], [⟨1, true, 101⟩], 0x86DD,
        List.replicate 42 7⟩ = .ok bs
    ∧ Frame.unmarshalBinary emptyFrame bs
    = (.ok, ⟨[0, 1, 0, 1, 0, 1], [1, 0, 1, 0, 1, 0], [⟨1, true, 101⟩], 0x86DD,
        List.replicate 42 7⟩) :=
  c1_round_trip _ (by decide) (by decide) (by decide) (by decide) (by decide)
    (by decide)

/-- C2: the claim says VLAN pack of a tag with priority 8 fails with
`InvalidVLAN` (priority 7 succeeding), and a tag with id 4095 fails with
`InvalidVLAN` on both pack and unpack.  The `vlan.go` under `src/`
performs no such validation: pack of priority 8 and of id 4095 both
succeed, and unpack of the bytes `ff ff` (id 4095) succeeds, contradicting
the repository's own tests `TestVLANMarshalBinary`/`TestVLANUnmarshalBinary`
and the documentation of `Frame.MarshalBinary`. -/
theorem c2_vlan_no_validation :
    VLAN.marshalBinary ⟨8, false, 0⟩ = .ok [0x00, 0x00]
    ∧ VLAN.marshalBinary ⟨0, false, 4095⟩ = .ok [0x0f, 0xff]
    ∧ VLAN.unmarshalBinary [0xff, 0xff] = .ok ⟨7, true, 4095⟩
    ∧ VLAN.marshalBinary ⟨7, false, 4093⟩ = .ok [0xef, 0xfd]
    ∧ VLAN.unmarshalBinary [0xef, 0xfd] = .ok ⟨7, false, 4093⟩ := by
  decide

/-- C3: the claim says every buffer access in the VLAN tag-chain loop is
in bounds, so every input yields a frame or
`UnexpectedEndOfInput`/`InvalidVLAN`.  On the go-fuzz crasher input
`"190734863281\x81\x0032"` (16 bytes: addresses, VLAN marker, 2-byte tag
body, nothing more) the loop's 2-byte remaining check passes and the read
of `b[16:18]` for the next type field is out of range: a runtime panic,
not an error return - the regression test expects `UnexpectedEndOfInput`
here. -/
theorem c3_loop_oob :
    (Frame.unmarshalBinary emptyFrame
      [0x31, 0x39, 0x30, 0x37, 0x33, 0x34, 0x38, 0x36, 0x33, 0x32, 0x38, 0x31,
       0x81, 0x00, 0x33, 0x32]).1 = .crash := by
  decide

/-- C4 (amended): when Frame unmarshal returns an error, the receiver's
payload field is never modified; the destination, source, VLAN tags and
EtherType decoded before the failure point are, however, retained in the
receiver. -/
theorem c4_payload_preserved (f : Frame) (b : List Nat) (r : UResult)
    (f2 : Frame) (h : Frame.unmarshalBinary f b = (r, f2)) (hr : r ≠ .ok) :
    f2.payload = f.payload := by
  by_cases hlen : b.length < 14
  · simp only [Frame.unmarshalBinary, if_pos hlen] at h
    injection h with h1 h2
    subst h2
    rfl
  · simp only [Frame.unmarshalBinary, if_neg hlen] at h
    rcases htl : tagLoop (b.drop 14) 14 (uint16BE (slice b 12 14))
        { f with destinationMAC := slice b 0 6, sourceMAC := slice b 6 12 } with ⟨res, fX⟩
    rw [htl] at h
    have hpay : fX.payload = f.payload := by
      have hst := (tagLoop_state (b.drop 14) 14 (uint16BE (slice b 12 14))
        { f with destinationMAC := slice b 0 6, sourceMAC := slice b 6 12 }).1
      rw [htl] at hst
      simpa using hst
    cases res with
    | fail e =>
      injection h with h1 h2
      subst h2
      exact hpay
    | crash =>
      injection h with h1 h2
      subst h2
      exact hpay
    | done m et rest =>
      simp only [] at h
      repeat' split at h
      all_goals first
        | (injection h with h1 h2; subst h2; exact hpay)
        | (injection h with h1 h2; exact absurd h1.symm hr)
        | (subst h; exact hpay)

/-- C4 counterexample: on a 14-byte buffer whose payload-minimum check
fails, unmarshal returns `UnexpectedEndOfInput` yet the receiver keeps the
decoded destination, source and EtherType, so partially-built state is
retained. -/
theorem c4_cex :
    (Frame.unmarshalBinary emptyFrame (List.replicate 14 255)).1 = .err .eof
    ∧ (Frame.unmarshalBinary emptyFrame (List.replicate 14 255)).2 ≠ emptyFrame := by
  decide

/-- C4 witness: a failing decode whose receiver payload is untouched. -/
theorem c4_payload_preserved_wit :
    (Frame.unmarshalBinary emptyFrame (List.replicate 14 255)).2.payload
    = emptyFrame.payload :=
  c4_payload_preserved emptyFrame (List.replicate 14 255) (.err .eof) _
    (by decide) (by decide)

/-- C9: for every receiver and every input buffer of fewer than 14 bytes,
Frame unmarshal fails with `UnexpectedEndOfInput` and leaves the receiver
unchanged. -/
theorem c9_short_buffer (f : Frame) (b : List Nat) (h : b.length < 14) :
    Frame.unmarshalBinary f b = (.err .eof, f) := by
  unfold Frame.unmarshalBinary
  rw [if_pos h]

/-- C9 witness: the 13-byte zero buffer. -/
theorem c9_short_buffer_wit :
    Frame.unmarshalBinary emptyFrame (List.replicate 13 0)
    = (.err .eof, emptyFrame) :=
  c9_short_buffer emptyFrame (List.replicate 13 0) (by decide)

/-- C5: an input in which the tag-chain loop detects zero VLAN tags (the
first type field is not the VLAN marker) and in which exactly 42 bytes
follow the type field (total length 56, exactly 4 short of the untagged
46-byte payload minimum) decodes successfully into a frame with no VLAN
tags and the 42 remaining bytes as payload. -/
theorem c5_stripped_tag (b : List Nat) (hlen : b.length = 56)
    (hnm : uint16BE (slice b 12 14) ≠ 0x8100) :
    Frame.unmarshalBinary emptyFrame b
    = (.ok, { destinationMAC := slice b 0 6, sourceMAC := slice b 6 12,
              vlan := [], etherType := uint16BE (slice b 12 14),
              payload := b.drop 14 })
    ∧ (b.drop 14).length = 42 := by
  have hdl : (b.drop 14).length = 42 := by
    simp [hlen]
  refine ⟨?_, hdl⟩
  simp only [Frame.unmarshalBinary, if_neg (by omega : ¬ b.length < 14)]
  rw [tagLoop.eq_def, if_neg hnm]
  simp only [emptyFrame, hdl]
  norm_num

/-- C5 witness: the 56-byte all-zero buffer decodes with zero tags and a
42-byte payload. -/
theorem c5_stripped_tag_wit :
    Frame.unmarshalBinary emptyFrame (List.replicate 56 0)
    = (.ok, { destinationMAC := slice (List.replicate 56 0) 0 6,
              sourceMAC := slice (List.replicate 56 0) 6 12,
              vlan := [], etherType := uint16BE (slice (List.replicate 56 0) 12 14),
              payload := (List.replicate 56 0).drop 14 })
    ∧ ((List.replicate 56 0).drop 14).length = 42 :=
  c5_stripped_tag (List.replicate 56 0) (by decide) (by decide)

/-- C6: when the tag-chain loop completes normally having detected one or
more VLAN tags, Frame unmarshal fails with `UnexpectedEndOfInput` exactly
when fewer than 42 bytes remain after the final non-VLAN type field: the
per-tag reduction of the 46-byte minimum is clamped to one tag's worth, so
the minimum never drops below 42 no matter how many tags were found. -/
theorem c6_clamped_minimum (b : List Nat) (hlen : ¬ b.length < 14)
    (m et : Nat) (rest : List Nat) (fdone : Frame)
    (hdone : tagLoop (b.drop 14) 14 (uint16BE (slice b 12 14))
        { emptyFrame with destinationMAC := slice b 0 6, sourceMAC := slice b 6 12 }
      = (.done m et rest, fdone))
    (hk : 1 ≤ fdone.vlan.length) :
    ((Frame.unmarshalBinary emptyFrame b).1 = .err .eof ↔ rest.length < 42) := by
  simp only [Frame.unmarshalBinary, if_neg hlen]
  rw [hdone]
  have hvl1 : (if fdone.vlan.length > 1 then 1 else fdone.vlan.length) = 1 := by
    split_ifs <;> omega
  simp only [hvl1]
  split_ifs with hc <;> simp <;> omega

/-- C6 witness: a one-tag buffer with a 0-byte payload (18 bytes total)
fails with `UnexpectedEndOfInput`, matching `0 < 42`. -/
theorem c6_clamped_minimum_wit :
    (Frame.unmarshalBinary emptyFrame
      [0, 0, 0, 0, 0, 0, 0, 0, 0, 0, 0, 0, 0x81, 0x00, 0x00, 0x01, 0x08, 0x00]).1
      = .err .eof
    ↔ ([] : List Nat).length < 42 :=
  c6_clamped_minimum
    [0, 0, 0, 0, 0, 0, 0, 0, 0, 0, 0, 0, 0x81, 0x00, 0x00, 0x01, 0x08, 0x00]
    (by decide) 18 0x0800 [] ⟨[0, 0, 0, 0, 0, 0], [0, 0, 0, 0, 0, 0], [⟨0, false, 1⟩], 0, []⟩
    (by decide) (by decide)

/-- C8: for every frame with 6-byte addresses on which marshal succeeds,
the output has length `14 + 4k + payload length` and is laid out as
destination, source, then per tag the 2-byte marker `0x8100` and the
2-byte packed body, then the big-endian EtherType, then the payload
verbatim. -/
theorem c8_marshal_layout (f : Frame) (bs : List Nat)
    (hdst : f.destinationMAC.length = 6) (hsrc : f.sourceMAC.length = 6)
    (h : f.marshalBinary = .ok bs) :
    bs.length = 14 + 4 * f.vlan.length + f.payload.length
    ∧ bs = f.destinationMAC ++ f.sourceMAC ++ tagsBytes f.vlan
        ++ putUint16 f.etherType ++ f.payload := by
  rw [marshalBinary_eq] at h
  injection h with h
  subst h
  constructor
  · simp [padTo_length, tagsBytes_length, putUint16]
    ring
  · rw [padTo_of_length _ hdst, padTo_of_length _ hsrc]

/-- C8 witness: a concrete tagless frame. -/
theorem c8_marshal_layout_wit :
    ([1, 0, 1, 0, 1, 0, 0, 1, 0, 1, 0, 1, 0x08, 0x06, 9, 9] : List Nat).length
      = 14 + 4 * ([] : List VLAN).length + ([9, 9] : List Nat).length
    ∧ ([1, 0, 1, 0, 1, 0, 0, 1, 0, 1, 0, 1, 0x08, 0x06, 9, 9] : List Nat)
      = [1, 0, 1, 0, 1, 0] ++ [0, 1, 0, 1, 0, 1] ++ tagsBytes []
        ++ putUint16 0x0806 ++ [9, 9] :=
  c8_marshal_layout ⟨[1, 0, 1, 0, 1, 0], [0, 1, 0, 1, 0, 1], [], 0x0806, [9, 9]⟩
    [1, 0, 1, 0, 1, 0, 0, 1, 0, 1, 0, 1, 0x08, 0x06, 9, 9]
    (by decide) (by decide) (by decide)

/-- C10: a successfully decoded frame never carries the VLAN marker
`0x8100` as its EtherType (the tag-chain loop only terminates on a
non-marker value), and consequently a frame whose EtherType is the marker
can never be recovered by unmarshaling its own marshalled bytes. -/
theorem c10_ethertype_never_marker :
    (∀ (f : Frame) (b : List Nat) (f2 : Frame),
        Frame.unmarshalBinary f b = (.ok, f2) → f2.etherType ≠ 0x8100)
    ∧ (∀ (f : Frame) (bs : List Nat) (f0 f2 : Frame),
        f.etherType = 0x8100 → f.marshalBinary = .ok bs →
        Frame.unmarshalBinary f0 bs = (.ok, f2) → f2 ≠ f) :=
  ⟨fun f b f2 h => unmarshal_ok_et f b f2 h,
   fun f bs f0 f2 hET _ hun hEq =>
     unmarshal_ok_et f0 bs f2 hun (by rw [hEq, hET])⟩

/-- C10 witness: a concrete successful decode has a non-marker EtherType. -/
theorem c10_ethertype_never_marker_wit :
    ({ destinationMAC := [0, 0, 0, 0, 0, 0], sourceMAC := [0, 0, 0, 0, 0, 0],
       vlan := [], etherType := 0x0800,
       payload := List.replicate 46 0 } : Frame).etherType ≠ 0x8100 :=
  c10_ethertype_never_marker.1 emptyFrame
    ([0, 0, 0, 0, 0, 0, 0, 0, 0, 0, 0, 0, 0x08, 0x00] ++ List.replicate 46 0)
    _ (by decide)

/-- C7: for every valid VLAN tag (priority at most 7, id at most 4093),
packing produces the 16-bit big-endian form (bits 15-13 priority, bit 12
dropEligible, bits 11-0 id) and unpacking those two bytes yields the tag
back exactly. -/
theorem c7_vlan_round_trip (v : VLAN) (hp : v.priority ≤ 7) (hi : v.id ≤ 4093) :
    v.marshalBinary = .ok (putUint16 v.pack)
    ∧ VLAN.unmarshalBinary (putUint16 v.pack) = .ok v :=
  ⟨rfl, vlan_unmarshal_pack v hp hi⟩

/-- C7 witness: the tag with priority 1, drop eligibility, id 101. -/
theorem c7_vlan_round_trip_wit :
    VLAN.marshalBinary ⟨1, true, 101⟩ = .ok (putUint16 (VLAN.pack ⟨1, true, 101⟩))
    ∧ VLAN.unmarshalBinary (putUint16 (VLAN.pack ⟨1, true, 101⟩))
      = .ok ⟨1, true, 101⟩ :=
  c7_vlan_round_trip ⟨1, true, 101⟩ (by decide) (by decide)

end Ethernet
